import Mathlib

set_option maxRecDepth 100000

/-!
Verification of the URL-resolution and attachment pipeline of a Slack
command-line client (`scripts/slack.py`).

Strings are modelled as `List Char`.  The regular-expression matching in
`parse_slack_url` is embedded by a deterministic character-level parser that
reproduces the backtracking semantics of the two patterns used by the source:

* `re.match(r"https://[^/]+\.slack\.com/archives/([A-Z0-9]+)/p(\d+)", url)`
* `re.search(r"thread_ts=([0-9.]+)", url)` guarded by `"thread_ts=" in url`.

Because each literal following a greedy character class starts with a
character excluded from that class (`/` after `[^/]+`, `/` after `[A-Z0-9]+`),
each captured group is exactly the maximal run of its class, and the
`\.slack\.com` part forces the host run to end with `.slack.com` with at
least one character in front of it.
-/

namespace SlackClient

/-- The characters of the literal `https://`. -/
def httpsL : List Char := ['h', 't', 't', 'p', 's', ':', '/', '/']

/-- The characters of the literal `.slack.com`. -/
def slackDomL : List Char := ['.', 's', 'l', 'a', 'c', 'k', '.', 'c', 'o', 'm']

/-- The characters of the literal `/archives/`. -/
def archivesL : List Char := ['/', 'a', 'r', 'c', 'h', 'i', 'v', 'e', 's', '/']

/-- The characters of the literal `/p`. -/
def pL : List Char := ['/', 'p']

/-- The characters of the literal `thread_ts=`. -/
def threadTsL : List Char := ['t', 'h', 'r', 'e', 'a', 'd', '_', 't', 's', '=']

/-- Membership in the character class `[A-Z0-9]`. -/
def isUpperDigit (c : Char) : Bool :=
  ('A' ≤ c && c ≤ 'Z') || ('0' ≤ c && c ≤ '9')

/-- Membership in the character class `[0-9.]`. -/
def isDotDigit (c : Char) : Bool :=
  c.isDigit || c == '.'

/-- Matching a literal string at the front of the input: returns the rest of
the input on success. -/
def matchLit : List Char → List Char → Option (List Char)
  | [], s => some s
  | _ :: _, [] => none
  | l :: ls, c :: cs => if c = l then matchLit ls cs else none

/-- The anchored match of
`https://[^/]+\.slack\.com/archives/([A-Z0-9]+)/p(\d+)` against the input,
returning the two captured groups (channel, digit run) on success.  As in
`re.match`, arbitrary input may follow the digit run. -/
def slackRegexMatch (url : List Char) : Option (List Char × List Char) :=
  (matchLit httpsL url).bind fun r1 =>
    let host := r1.takeWhile (fun c => c != '/')
    if slackDomL <:+ host ∧ 11 ≤ host.length then
      (matchLit archivesL (r1.dropWhile (fun c => c != '/'))).bind fun r2 =>
        let chan := r2.takeWhile isUpperDigit
        if chan = [] then none
        else
          (matchLit pL (r2.dropWhile isUpperDigit)).bind fun r3 =>
            let digits := r3.takeWhile (fun c => c.isDigit)
            if digits = [] then none else some (chan, digits)
    else none

/-- `lit in s` for strings, as Python computes it. -/
def occursIn (lit : List Char) : List Char → Bool
  | [] => (matchLit lit []).isSome
  | c :: cs => (matchLit lit (c :: cs)).isSome || occursIn lit cs

/-- `re.search(r"thread_ts=([0-9.]+)", url)`: scan left to right for the
first position where the literal `thread_ts=` is followed by at least one
`[0-9.]` character, and capture the maximal run of such characters. -/
def findThread : List Char → Option (List Char)
  | [] => none
  | c :: cs =>
    match matchLit threadTsL (c :: cs) with
    | some rest =>
      let cap := rest.takeWhile isDotDigit
      if cap = [] then findThread cs else some cap
    | none => findThread cs

/-- Result record of `parse_slack_url`. -/
structure SlackUrlParse where
  channel_id : List Char
  message_ts : List Char
  thread_ts : Option (List Char)
deriving DecidableEq, Repr

/-- `parse_slack_url` from `scripts/slack.py`: on a regex match, the message
timestamp is `raw_ts[:-6] ++ "." ++ raw_ts[-6:]` (Python slices clamp at 0,
which is Nat subtraction here), and `thread_ts` is set from the search
pattern when `"thread_ts="` occurs in the url. -/
def parse_slack_url (url : List Char) : Option SlackUrlParse :=
  (slackRegexMatch url).bind fun g =>
    let message_ts :=
      g.2.take (g.2.length - 6) ++ '.' :: g.2.drop (g.2.length - 6)
    let th := if occursIn threadTsL url then findThread url else none
    some ⟨g.1, message_ts, th⟩

example :
    parse_slack_url "https://w.slack.com/archives/C123/p12345".data =
      some ⟨"C123".data, ".12345".data, none⟩ := by decide

example :
    parse_slack_url
        "https://workspace.slack.com/archives/C05AZF69J9Z/p1769774454630549".data =
      some ⟨"C05AZF69J9Z".data, "1769774454.630549".data, none⟩ := by decide

example :
    parse_slack_url "https://slack.com/archives/C123/p1234567".data = none := by
  decide

example :
    parse_slack_url
        "https://w.slack.com/archives/C1/p1769774454630549?thread_ts=1769174779.798959&cid=C1".data =
      some ⟨"C1".data, "1769774454.630549".data, some "1769174779.798959".data⟩ := by
  decide

theorem matchLit_self_append (lit rest : List Char) :
    matchLit lit (lit ++ rest) = some rest := by
  induction lit with
  | nil => rfl
  | cons l ls ih => simp [matchLit, ih]

theorem takeWhile_append_all {p : Char → Bool} {l₁ : List Char}
    (l₂ : List Char) (h : ∀ c ∈ l₁, p c = true) :
    (l₁ ++ l₂).takeWhile p = l₁ ++ l₂.takeWhile p := by
  induction l₁ with
  | nil => rfl
  | cons c cs ih =>
    simp only [List.cons_append, List.takeWhile_cons,
      h c (List.mem_cons_self c cs), if_true]
    rw [ih fun x hx => h x (List.mem_cons_of_mem c hx)]

theorem dropWhile_append_all {p : Char → Bool} {l₁ : List Char}
    (l₂ : List Char) (h : ∀ c ∈ l₁, p c = true) :
    (l₁ ++ l₂).dropWhile p = l₂.dropWhile p := by
  induction l₁ with
  | nil => rfl
  | cons c cs ih =>
    simp only [List.cons_append, List.dropWhile_cons,
      h c (List.mem_cons_self c cs), if_true]
    exact ih fun x hx => h x (List.mem_cons_of_mem c hx)

theorem takeWhile_cons_false {p : Char → Bool} {c : Char} (l : List Char)
    (h : p c = false) : (c :: l).takeWhile p = [] := by
  simp [List.takeWhile_cons, h]

theorem dropWhile_cons_false {p : Char → Bool} {c : Char} (l : List Char)
    (h : p c = false) : (c :: l).dropWhile p = c :: l := by
  simp [List.dropWhile_cons, h]

/-- Any well-formed permalink shape is matched by the permalink regex with
the channel and digit run as the captured groups; `rest` is arbitrary
trailing input that does not begin with a digit (so it cannot extend the
digit run). -/
theorem slackRegexMatch_structured (sub chan digits rest : List Char)
    (hs1 : sub ≠ []) (hs2 : ∀ c ∈ sub, c ≠ '/')
    (hc1 : chan ≠ []) (hc2 : ∀ c ∈ chan, isUpperDigit c = true)
    (hd1 : digits ≠ []) (hd2 : ∀ c ∈ digits, c.isDigit = true)
    (hr : ∀ c cs, rest = c :: cs → c.isDigit = false) :
    slackRegexMatch (httpsL ++ (sub ++ (slackDomL ++ (archivesL ++
        (chan ++ (pL ++ (digits ++ rest))))))) = some (chan, digits) := by
  have hdom : ∀ c ∈ slackDomL, (c != '/') = true := by decide
  have hslash : ∀ c ∈ sub ++ slackDomL, (c != '/') = true := by
    intro c hc
    rcases List.mem_append.mp hc with h | h
    · simpa [bne_iff_ne] using hs2 c h
    · exact hdom c h
  have harchT : ∀ X : List Char,
      (archivesL ++ X).takeWhile (fun c => c != '/') = [] := by
    intro X
    simp [archivesL]
  have harchD : ∀ X : List Char,
      (archivesL ++ X).dropWhile (fun c => c != '/') = archivesL ++ X := by
    intro X
    simp [archivesL]
  have hpT : ∀ X : List Char, (pL ++ X).takeWhile isUpperDigit = [] := by
    intro X
    have h : isUpperDigit '/' = false := by decide
    simp [pL, h]
  have hpD : ∀ X : List Char, (pL ++ X).dropWhile isUpperDigit = pL ++ X := by
    intro X
    have h : isUpperDigit '/' = false := by decide
    simp [pL, h]
  have hhost :
      ((sub ++ (slackDomL ++ (archivesL ++ (chan ++ (pL ++ (digits ++
          rest)))))).takeWhile fun c => c != '/') = sub ++ slackDomL := by
    rw [← List.append_assoc sub slackDomL, takeWhile_append_all _ hslash,
      harchT, List.append_nil]
  have hdrop :
      ((sub ++ (slackDomL ++ (archivesL ++ (chan ++ (pL ++ (digits ++
          rest)))))).dropWhile fun c => c != '/') =
        archivesL ++ (chan ++ (pL ++ (digits ++ rest))) := by
    rw [← List.append_assoc sub slackDomL, dropWhile_append_all _ hslash,
      harchD]
  have hcond : slackDomL <:+ sub ++ slackDomL ∧ 11 ≤ (sub ++ slackDomL).length := by
    refine ⟨List.suffix_append sub slackDomL, ?_⟩
    have h1 : 0 < sub.length := List.length_pos.mpr hs1
    have h2 : slackDomL.length = 10 := by decide
    simp only [List.length_append, h2]
    omega
  have hchan : (chan ++ (pL ++ (digits ++ rest))).takeWhile isUpperDigit = chan := by
    rw [takeWhile_append_all _ hc2, hpT, List.append_nil]
  have hchandrop :
      (chan ++ (pL ++ (digits ++ rest))).dropWhile isUpperDigit =
        pL ++ (digits ++ rest) := by
    rw [dropWhile_append_all _ hc2, hpD]
  have hdig : (digits ++ rest).takeWhile (fun c => c.isDigit) = digits := by
    rw [takeWhile_append_all _ hd2]
    cases rest with
    | nil => simp
    | cons c cs => rw [takeWhile_cons_false _ (hr c cs rfl), List.append_nil]
  unfold slackRegexMatch
  rw [matchLit_self_append]
  simp only [Option.some_bind]
  rw [hhost, hdrop, if_pos hcond, matchLit_self_append]
  simp only [Option.some_bind]
  rw [hchan, hchandrop, if_neg hc1, matchLit_self_append]
  simp only [Option.some_bind]
  rw [hdig, if_neg hd1]

/-- C1: the spec requires that a permalink whose digit run has fewer than 7
digits is rejected with `MalformedTimestamp`.  The code instead accepts it:
on `.../archives/C123/p12345` the regex `\d+` matches the 5-digit run and
`raw_ts[:-6]` is empty, so `parse_slack_url` returns a result whose
`message_ts` is `".12345"` — a timestamp with a missing integer part. -/
theorem c1_short_digit_run_not_rejected :
    parse_slack_url "https://w.slack.com/archives/C123/p12345".data =
      some ⟨"C123".data, ".12345".data, none⟩ := by decide

/-- C3: for every permalink of the form
`https://<sub>.slack.com/archives/<CHAN>/p<DIGITS>` with `<sub>` a nonempty
slash-free subdomain, `<CHAN>` nonempty uppercase-alphanumeric and
`<DIGITS>` a run of at least 7 digits, `parse_slack_url` returns the channel
verbatim and the timestamp made of all digits but the last 6, a decimal
point, and the last 6 digits. -/
theorem c3_valid_permalink_parse (sub chan digits : List Char)
    (hs1 : sub ≠ []) (hs2 : ∀ c ∈ sub, c ≠ '/')
    (hc1 : chan ≠ []) (hc2 : ∀ c ∈ chan, isUpperDigit c = true)
    (hd7 : 7 ≤ digits.length) (hd2 : ∀ c ∈ digits, c.isDigit = true) :
    ∃ r, parse_slack_url (httpsL ++ (sub ++ (slackDomL ++ (archivesL ++
          (chan ++ (pL ++ digits)))))) = some r ∧
      r.channel_id = chan ∧
      r.message_ts =
        digits.take (digits.length - 6) ++ '.' :: digits.drop (digits.length - 6) := by
  have hd1 : digits ≠ [] := by
    intro h
    rw [h] at hd7
    simp at hd7
  have hm := slackRegexMatch_structured sub chan digits [] hs1 hs2 hc1 hc2 hd1
    hd2 (by intro c cs h; cases h)
  rw [List.append_nil] at hm
  unfold parse_slack_url
  rw [hm]
  exact ⟨_, rfl, rfl, rfl⟩

/-- Witness for C3 at the concrete permalink given in the spec. -/
theorem c3_valid_permalink_parse_witness :
    ∃ r, parse_slack_url
        "https://workspace.slack.com/archives/C0123456789/p1700000000123456".data =
          some r ∧
      r.channel_id = "C0123456789".data ∧
      r.message_ts = "1700000000.123456".data := by
  obtain ⟨r, hr, h1, h2⟩ := c3_valid_permalink_parse "workspace".data
    "C0123456789".data "1700000000123456".data (by decide) (by decide)
    (by decide) (by decide) (by decide) (by decide)
  rw [show (httpsL ++ ("workspace".data ++ (slackDomL ++ (archivesL ++
      ("C0123456789".data ++ (pL ++ "1700000000123456".data)))))) =
    "https://workspace.slack.com/archives/C0123456789/p1700000000123456".data
    from by decide] at hr
  refine ⟨r, hr, h1, ?_⟩
  rw [h2]
  decide

theorem takeWhile_all {p : Char → Bool} {l : List Char}
    (h : ∀ c ∈ l, p c = true) : l.takeWhile p = l := by
  induction l with
  | nil => rfl
  | cons c cs ih =>
    simp only [List.takeWhile_cons, h c (List.mem_cons_self c cs), if_true]
    rw [ih fun x hx => h x (List.mem_cons_of_mem c hx)]

theorem occursIn_of_isSome {lit s : List Char}
    (h : (matchLit lit s).isSome = true) : occursIn lit s = true := by
  cases s with
  | nil => simpa [occursIn] using h
  | cons c cs => simp [occursIn, h]

theorem occursIn_cons_of {lit : List Char} (c : Char) {cs : List Char}
    (h : occursIn lit cs = true) : occursIn lit (c :: cs) = true := by
  simp [occursIn, h]

theorem occursIn_append_right {lit s₂ : List Char} (s₁ : List Char)
    (h : occursIn lit s₂ = true) : occursIn lit (s₁ ++ s₂) = true := by
  induction s₁ with
  | nil => simpa using h
  | cons c cs ih => exact occursIn_cons_of c ih

theorem findThread_cons_none {c : Char} {cs : List Char}
    (h : matchLit threadTsL (c :: cs) = none) :
    findThread (c :: cs) = findThread cs := by
  simp [findThread, h]

theorem findThread_skip {ys : List Char} (xs : List Char)
    (h : ∀ i, i < xs.length → matchLit threadTsL (xs.drop i ++ ys) = none) :
    findThread (xs ++ ys) = findThread ys := by
  induction xs with
  | nil => simp
  | cons c cs ih =>
    have h0 : matchLit threadTsL (c :: (cs ++ ys)) = none := by
      simpa using h 0 (by simp)
    rw [List.cons_append, findThread_cons_none h0]
    exact ih fun i hi => by simpa using h (i + 1) (by simp; omega)

theorem findThread_at (t : List Char) (ht1 : t ≠ [])
    (ht2 : ∀ c ∈ t, isDotDigit c = true) :
    findThread (threadTsL ++ t) = some t := by
  have hm : matchLit threadTsL
      ('t' :: (['h', 'r', 'e', 'a', 'd', '_', 't', 's', '='] ++ t)) = some t :=
    matchLit_self_append threadTsL t
  have hcap : t.takeWhile isDotDigit = t := takeWhile_all ht2
  show findThread ('t' :: (['h', 'r', 'e', 'a', 'd', '_', 't', 's', '='] ++ t)) =
    some t
  rw [findThread, hm]
  simp [hcap, ht1]

theorem matchLit_th_cons {c : Char} (rest : List Char) (h : c ≠ 't') :
    matchLit threadTsL (c :: rest) = none := by
  simp [threadTsL, matchLit, h]

theorem pw_no_t {xs : List Char} (ys : List Char) (h : ∀ c ∈ xs, c ≠ 't') :
    ∀ i, i < xs.length → matchLit threadTsL (xs.drop i ++ ys) = none := by
  induction xs with
  | nil =>
    intro i hi
    simp at hi
  | cons c cs ih =>
    intro i hi
    cases i with
    | zero => simpa using matchLit_th_cons (cs ++ ys) (h c (List.mem_cons_self c cs))
    | succ j =>
      simpa using ih (fun x hx => h x (List.mem_cons_of_mem c hx)) j
        (by simpa using hi)

theorem pw_https (ys : List Char) :
    ∀ i, i < httpsL.length → matchLit threadTsL (httpsL.drop i ++ ys) = none := by
  intro i hi
  have h8 : httpsL.length = 8 := by decide
  rw [h8] at hi
  interval_cases i <;> simp [httpsL, threadTsL, matchLit]

theorem matchLit_none_underscore (lit xs : List Char) :
    ∀ ys : List Char, '_' ∈ lit → '.' ∉ lit → (∀ c ∈ xs, c ≠ '_') →
      matchLit lit (xs ++ '.' :: ys) = none := by
  induction xs generalizing lit with
  | nil =>
    intro ys h1 h2 _
    cases lit with
    | nil => cases h1
    | cons l ls =>
      have hl : ¬('.' : Char) = l := by
        intro h
        apply h2
        rw [h]
        exact List.mem_cons_self _ _
      simp [matchLit, hl]
  | cons c cs ih =>
    intro ys h1 h2 h3
    cases lit with
    | nil => cases h1
    | cons l ls =>
      by_cases hc : c = l
      · have h1' : '_' ∈ ls := by
          rcases List.mem_cons.mp h1 with h | h
          · exact absurd (hc.trans h.symm) (h3 c (List.mem_cons_self c cs))
          · exact h
        have h2' : '.' ∉ ls := fun h => h2 (List.mem_cons_of_mem _ h)
        have h3' : ∀ x ∈ cs, x ≠ '_' := fun x hx => h3 x (List.mem_cons_of_mem _ hx)
        simpa [matchLit, hc] using ih ls ys h1' h2' h3'
      · simp [matchLit, hc]

theorem pw_underscore {xs : List Char} (ys : List Char)
    (h : ∀ c ∈ xs, c ≠ '_') :
    ∀ i, i < xs.length → matchLit threadTsL (xs.drop i ++ '.' :: ys) = none := by
  induction xs with
  | nil =>
    intro i hi
    simp at hi
  | cons c cs ih =>
    intro i hi
    cases i with
    | zero =>
      simpa using matchLit_none_underscore threadTsL (c :: cs) ys (by decide)
        (by decide) h
    | succ j =>
      simpa using ih (fun x hx => h x (List.mem_cons_of_mem c hx)) j
        (by simpa using hi)

theorem pw_sub {xs : List Char} (zs : List Char) (h : ∀ c ∈ xs, c ≠ '_')
    (hz : ∃ ys₀, zs = '.' :: ys₀) :
    ∀ i, i < xs.length → matchLit threadTsL (xs.drop i ++ zs) = none := by
  obtain ⟨ys₀, rfl⟩ := hz
  exact pw_underscore ys₀ h

theorem pw_append {xs₁ xs₂ ys : List Char}
    (h₁ : ∀ i, i < xs₁.length → matchLit threadTsL (xs₁.drop i ++ (xs₂ ++ ys)) = none)
    (h₂ : ∀ i, i < xs₂.length → matchLit threadTsL (xs₂.drop i ++ ys) = none) :
    ∀ i, i < (xs₁ ++ xs₂).length →
      matchLit threadTsL ((xs₁ ++ xs₂).drop i ++ ys) = none := by
  intro i hi
  rcases Nat.lt_or_ge i xs₁.length with hlt | hge
  · rw [List.drop_append_of_le_length (Nat.le_of_lt hlt), List.append_assoc]
    exact h₁ i hlt
  · obtain ⟨j, rfl⟩ : ∃ j, i = xs₁.length + j := ⟨i - xs₁.length, by omega⟩
    rw [List.drop_append]
    apply h₂
    simp only [List.length_append] at hi
    omega

/-- C7: for every valid permalink (nonempty subdomain without `/` or `_`,
nonempty uppercase-alphanumeric channel, nonempty digit run) with a query
fragment `?thread_ts=<t>` appended, where `<t>` is a nonempty run of digits
and dots, `parse_slack_url` returns exactly `t`, unmodified, as the
`thread_ts` field of its result. -/
theorem c7_thread_ts_extracted_verbatim (sub chan digits t : List Char)
    (hs1 : sub ≠ []) (hs2 : ∀ c ∈ sub, c ≠ '/') (hs3 : ∀ c ∈ sub, c ≠ '_')
    (hc1 : chan ≠ []) (hc2 : ∀ c ∈ chan, isUpperDigit c = true)
    (hd1 : digits ≠ []) (hd2 : ∀ c ∈ digits, c.isDigit = true)
    (ht1 : t ≠ []) (ht2 : ∀ c ∈ t, isDotDigit c = true) :
    ∃ r, parse_slack_url (httpsL ++ (sub ++ (slackDomL ++ (archivesL ++
          (chan ++ (pL ++ (digits ++ ('?' :: (threadTsL ++ t))))))))) = some r ∧
      r.thread_ts = some t := by
  have hm := slackRegexMatch_structured sub chan digits ('?' :: (threadTsL ++ t))
    hs1 hs2 hc1 hc2 hd1 hd2 (by intro c cs h; cases h; decide)
  have hocc : occursIn threadTsL (httpsL ++ (sub ++ (slackDomL ++ (archivesL ++
      (chan ++ (pL ++ (digits ++ ('?' :: (threadTsL ++ t))))))))) = true := by
    apply occursIn_append_right
    apply occursIn_append_right
    apply occursIn_append_right
    apply occursIn_append_right
    apply occursIn_append_right
    apply occursIn_append_right
    apply occursIn_append_right
    apply occursIn_cons_of
    exact occursIn_of_isSome (by rw [matchLit_self_append]; rfl)
  have hnott : ∀ {l : List Char}, (∀ c ∈ l, c.isDigit = true) → ∀ c ∈ l, c ≠ 't' := by
    intro l hl c hc heq
    have h := hl c hc
    rw [heq] at h
    exact absurd h (by decide)
  have hchant : ∀ c ∈ chan, c ≠ 't' := by
    intro c hc heq
    have h := hc2 c hc
    rw [heq] at h
    exact absurd h (by decide)
  have pwQ : ∀ i, i < (['?'] : List Char).length →
      matchLit threadTsL ((['?'] : List Char).drop i ++ (threadTsL ++ t)) = none := by
    intro i hi
    have h1 : (['?'] : List Char).length = 1 := rfl
    rw [h1] at hi
    interval_cases i
    simpa using matchLit_th_cons (threadTsL ++ t) (by decide)
  have pwF := pw_append (pw_no_t (['?'] ++ (threadTsL ++ t)) (hnott hd2)) pwQ
  have pwE := pw_append (pw_no_t _ (by decide : ∀ c ∈ pL, c ≠ 't')) pwF
  have pwD := pw_append (pw_no_t _ hchant) pwE
  have pwC := pw_append (pw_no_t _ (by decide : ∀ c ∈ archivesL, c ≠ 't')) pwD
  have pwB := pw_append (pw_no_t _ (by decide : ∀ c ∈ slackDomL, c ≠ 't')) pwC
  have pwA := pw_append (pw_sub _ hs3 ⟨_, rfl⟩) pwB
  have pwXS := pw_append (pw_https _) pwA
  have hfind : findThread (httpsL ++ (sub ++ (slackDomL ++ (archivesL ++
      (chan ++ (pL ++ (digits ++ ('?' :: (threadTsL ++ t))))))))) = some t := by
    have hU : httpsL ++ (sub ++ (slackDomL ++ (archivesL ++
        (chan ++ (pL ++ (digits ++ ('?' :: (threadTsL ++ t)))))))) =
          (httpsL ++ (sub ++ (slackDomL ++ (archivesL ++
            (chan ++ (pL ++ (digits ++ ['?']))))))) ++ (threadTsL ++ t) := by
      simp [List.append_assoc]
    rw [hU, findThread_skip _ pwXS, findThread_at t ht1 ht2]
  unfold parse_slack_url
  rw [hm]
  simp only [Option.some_bind]
  refine ⟨_, rfl, ?_⟩
  simp [hocc, hfind]

/-- Witness for C7 at the concrete permalink from the source's docstring. -/
theorem c7_thread_ts_extracted_verbatim_witness :
    ∃ r, parse_slack_url
        "https://workspace.slack.com/archives/C05AZF69J9Z/p1769774454630549?thread_ts=1769174779.798959".data =
          some r ∧
      r.thread_ts = some "1769174779.798959".data := by
  obtain ⟨r, hr, h1⟩ := c7_thread_ts_extracted_verbatim "workspace".data
    "C05AZF69J9Z".data "1769774454630549".data "1769174779.798959".data
    (by decide) (by decide) (by decide) (by decide) (by decide) (by decide)
    (by decide) (by decide) (by decide)
  rw [show (httpsL ++ ("workspace".data ++ (slackDomL ++ (archivesL ++
      ("C05AZF69J9Z".data ++ (pL ++ ("1769774454630549".data ++
        ('?' :: (threadTsL ++ "1769174779.798959".data))))))))) =
    "https://workspace.slack.com/archives/C05AZF69J9Z/p1769774454630549?thread_ts=1769174779.798959".data
    from by decide] at hr
  exact ⟨r, hr, h1⟩

/-!
`format_file_size` runs a Python loop whose first iteration works on the
int argument (the `size_bytes < 1024` comparison is exact int comparison)
and whose first division `size_bytes /= 1024` is int true division — the
correctly-rounded double of `size / 1024`.  From there on every `/= 1024`
is exact: the value is at least 1024 before each division, so dividing a
double by 2^10 only lowers the exponent.  `f"{x:.1f}"` rounds the exact
value of the double to one decimal digit with ties to the even digit, and
formatting the int directly in the `B` branch also converts it to a double
first.  Doubles are modelled exactly: conversion rounds the magnitude to 53
significant bits (ties to even) and raises OverflowError (`none` here) when
the rounded magnitude reaches 2^1024; a double value `a / b` is kept as the
integer pair `(a, b)` with `b` the power of 1024 accumulated so far.
Correct rounding of `size / 1024` is the rounded `size` over 1024, because
scaling by a power of two maps the 53-bit rounding grid onto itself.
-/

/-- Round-half-even of the rational `a / b` (for `b > 0`), as Python's
fixed-point formatting rounds the exact value of a double. -/
def roundHE (a b : ℤ) : ℤ :=
  let f := Int.fdiv a b
  let r2 := 2 * (a - f * b)
  if r2 < b then f
  else if b < r2 then f + 1
  else if f % 2 = 0 then f else f + 1

/-- Python's `f"{x:.1f}"` on a double of exact value `a / b` (for `b > 0`):
sign when the value is negative (even if it rounds to zero), then the
rounded value with exactly one decimal digit. -/
def fmt1f (a b : ℤ) : List Char :=
  let n := roundHE (10 * a) b
  let sign : List Char := if a < 0 then ['-'] else []
  let m := n.natAbs
  sign ++ Nat.toDigits 10 (m / 10) ++ '.' :: Nat.toDigits 10 (m % 10)

/-- Number of right shifts that bring `n` to at most 53 bits; the first
argument is fuel, passed as `n` itself. -/
def floatShift : Nat → Nat → Nat
  | 0, _ => 0
  | fuel + 1, n => if 2 ^ 53 ≤ n then floatShift fuel (n / 2) + 1 else 0

/-- The magnitude of the IEEE double nearest to the natural number `a`
(round to nearest, ties to even, unbounded exponent): magnitudes up to
2^53 are exact, larger ones keep 53 significant bits. -/
def roundNat53 (a : Nat) : Nat :=
  if a ≤ 2 ^ 53 then a
  else
    let k := floatShift a a
    let q := a / 2 ^ k
    let r := a % 2 ^ k
    let half := 2 ^ (k - 1)
    let q2 :=
      if r < half then q
      else if half < r then q + 1
      else if q % 2 = 0 then q else q + 1
    q2 * 2 ^ k

/-- CPython int-to-float conversion: the nearest double, or `none` for the
OverflowError raised when the rounded magnitude reaches 2^1024. -/
def toFloat (s : ℤ) : Option ℤ :=
  let m := roundNat53 s.natAbs
  if m < 2 ^ 1024 then some (if s < 0 then -(m : ℤ) else (m : ℤ)) else none

/-- The unit loop of `format_file_size` from its second iteration on:
`a / b` is the running double value; each step compares it with 1024 and
otherwise divides by 1024 by growing the denominator (exact on doubles of
magnitude at least 1024). -/
def fsLoop : List (List Char) → ℤ → ℤ → List Char
  | [], a, b => fmt1f a b ++ ['T', 'B']
  | u :: us, a, b => if a < 1024 * b then fmt1f a b ++ u else fsLoop us a (b * 1024)

/-- `format_file_size` from `scripts/slack.py`: step through `B`, `KB`,
`MB`, `GB`, returning at the first unit where the value is below 1024, with
`TB` as the fallback.  The first comparison is exact int comparison;
returning at `B` formats the int through a double (OverflowError when out
of float range); otherwise `size /= 1024` makes the value the
correctly-rounded double of `size / 1024` — the rounded size over 1024,
OverflowError when the rounded size reaches 2^1034 — and the remaining
iterations run exactly on that double. -/
def format_file_size (size : ℤ) : Option (List Char) :=
  if size < 1024 then (toFloat size).map (fun v => fmt1f v 1 ++ ['B'])
  else
    let m := roundNat53 size.natAbs
    if m < 2 ^ 1034 then
      some (fsLoop [['K', 'B'], ['M', 'B'], ['G', 'B']] (m : ℤ) 1024)
    else none

/-- `fmt1f` on an integer value is the integer's decimal digits with a
trailing `.0` and a minus sign on negatives. -/
theorem fmt1f_int (s : ℤ) :
    fmt1f s 1 =
      (if s < 0 then '-' :: Nat.toDigits 10 s.natAbs
        else Nat.toDigits 10 s.natAbs) ++ '.' :: '0' :: [] := by
  have hf : Int.fdiv (10 * s) 1 = 10 * s := Int.fdiv_one _
  have hn : roundHE (10 * s) 1 = 10 * s := by
    simp only [roundHE, hf]
    rw [if_pos (by ring_nf; omega)]
  have habs : (10 * s).natAbs = 10 * s.natAbs := by
    rw [Int.natAbs_mul]
    rfl
  have hdiv : 10 * s.natAbs / 10 = s.natAbs := Nat.mul_div_cancel_left _ (by norm_num)
  have hmod : 10 * s.natAbs % 10 = 0 := Nat.mul_mod_right 10 _
  simp only [fmt1f, hn, habs, hdiv, hmod]
  have h0 : Nat.toDigits 10 0 = ['0'] := by decide
  by_cases hs : s < 0
  · rw [if_pos hs, if_pos hs]
    simp [h0]
  · rw [if_neg hs, if_neg hs]
    simp [h0]

/-- Integers of magnitude at most 2^53 convert to float exactly. -/
theorem toFloat_exact (s : ℤ) (h : s.natAbs ≤ 9007199254740992) :
    toFloat s = some s := by
  have h53 : (2 : ℕ) ^ 53 = 9007199254740992 := by norm_num
  have hr : roundNat53 s.natAbs = s.natAbs := by
    simp only [roundNat53]
    rw [if_pos (by rw [h53]; exact h)]
  have hbig : (9007199254740992 : ℕ) < 2 ^ 1024 := by
    rw [show (9007199254740992 : ℕ) = 2 ^ 53 from by norm_num]
    exact Nat.pow_lt_pow_right (by norm_num) (by norm_num)
  have hlt : roundNat53 s.natAbs < 2 ^ 1024 := by
    rw [hr]
    exact lt_of_le_of_lt h hbig
  simp only [toFloat]
  rw [if_pos hlt, hr]
  congr 1
  by_cases hs : s < 0
  · rw [if_pos hs]
    omega
  · rw [if_neg hs]
    omega

/-- For sizes past 1023 whose float conversion is exact, `format_file_size`
is the unit loop on the exact value with the denominator starting at
1024. -/
theorem format_file_size_loop (s : ℤ) (h1 : 1024 ≤ s)
    (h2 : s ≤ 9007199254740992) :
    format_file_size s =
      some (fsLoop [['K', 'B'], ['M', 'B'], ['G', 'B']] s 1024) := by
  have habs : s.natAbs ≤ 9007199254740992 := by omega
  have h53 : (2 : ℕ) ^ 53 = 9007199254740992 := by norm_num
  have hr : roundNat53 s.natAbs = s.natAbs := by
    simp only [roundNat53]
    rw [if_pos (by rw [h53]; exact habs)]
  have hbig : (9007199254740992 : ℕ) < 2 ^ 1034 := by
    rw [show (9007199254740992 : ℕ) = 2 ^ 53 from by norm_num]
    exact Nat.pow_lt_pow_right (by norm_num) (by norm_num)
  have hcast : (s.natAbs : ℤ) = s := by omega
  simp only [format_file_size]
  rw [if_neg (by omega : ¬s < 1024), hr, if_pos (lt_of_le_of_lt habs hbig), hcast]

/-- C5 counterexample: at size 10^400 the source raises OverflowError — the
correctly-rounded double of `size / 1024` is far beyond the double range —
so no TB string is produced: TB is not an uncapped fallback for every large
size. -/
theorem c5_overflow_counterexample :
    format_file_size (10 ^ 400) = none := by decide

/-- C5 (amended): `format_file_size` steps through units B, KB, MB, GB, TB,
returning at the first unit where the value is below 1024 (bounds 1024,
1024^2 = 1048576, 1024^3 = 1073741824, 1024^4 = 1099511627776), formatted
to one decimal place by `fmt1f` — as claimed for every size whose float
conversion is exact (magnitude at most 2^53 = 9007199254740992), with TB
used for every such size past 1024^4.  Beyond the double range the source
raises OverflowError instead of reaching TB (see the counterexample), and
past 2^53 the rendered digits are the nearest double's.  The four concrete
spec values hold unchanged. -/
theorem c5_format_file_size_units :
    (∀ s : ℤ,
      (-9007199254740992 ≤ s → s < 1024 →
        format_file_size s = some (fmt1f s 1 ++ ['B'])) ∧
      (1024 ≤ s → s < 1048576 →
        format_file_size s = some (fmt1f s 1024 ++ ['K', 'B'])) ∧
      (1048576 ≤ s → s < 1073741824 →
        format_file_size s = some (fmt1f s 1048576 ++ ['M', 'B'])) ∧
      (1073741824 ≤ s → s < 1099511627776 →
        format_file_size s = some (fmt1f s 1073741824 ++ ['G', 'B'])) ∧
      (1099511627776 ≤ s → s ≤ 9007199254740992 →
        format_file_size s = some (fmt1f s 1099511627776 ++ ['T', 'B']))) ∧
    format_file_size 0 = some "0.0B".data ∧
    format_file_size 1023 = some "1023.0B".data ∧
    format_file_size 1024 = some "1.0KB".data ∧
    format_file_size (1024 * 1024) = some "1.0MB".data := by
  refine ⟨fun s => ⟨?_, ?_, ?_, ?_, ?_⟩, by decide, by decide, by decide, by decide⟩
  · intro h1 h2
    simp only [format_file_size]
    rw [if_pos h2, toFloat_exact s (by omega)]
    rfl
  · intro h1 h2
    rw [format_file_size_loop s h1 (by omega)]
    simp only [fsLoop]
    rw [if_pos (by omega : s < 1024 * 1024)]
  · intro h1 h2
    rw [format_file_size_loop s (by omega) (by omega)]
    simp only [fsLoop]
    rw [if_neg (by omega : ¬s < 1024 * 1024),
      if_pos (by omega : s < 1024 * (1024 * 1024))]
    norm_num
  · intro h1 h2
    rw [format_file_size_loop s (by omega) (by omega)]
    simp only [fsLoop]
    rw [if_neg (by omega : ¬s < 1024 * 1024),
      if_neg (by omega : ¬s < 1024 * (1024 * 1024)),
      if_pos (by omega : s < 1024 * (1024 * 1024 * 1024))]
    norm_num
  · intro h1 h2
    rw [format_file_size_loop s (by omega) h2]
    simp only [fsLoop]
    rw [if_neg (by omega : ¬s < 1024 * 1024),
      if_neg (by omega : ¬s < 1024 * (1024 * 1024)),
      if_neg (by omega : ¬s < 1024 * (1024 * 1024 * 1024))]
    norm_num

/-- Witness for C5: one instantiation per unit range, all through
`c5_format_file_size_units`. -/
theorem c5_format_file_size_units_witness :
    format_file_size 5 = some "5.0B".data ∧
    format_file_size 2048 = some "2.0KB".data ∧
    format_file_size (3 * 1048576) = some "3.0MB".data ∧
    format_file_size 1073741824 = some "1.0GB".data ∧
    format_file_size 1099511627776 = some "1.0TB".data := by
  have h := c5_format_file_size_units.1
  refine ⟨?_, ?_, ?_, ?_, ?_⟩
  · rw [(h 5).1 (by norm_num) (by norm_num)]; decide
  · rw [(h 2048).2.1 (by norm_num) (by norm_num)]; decide
  · rw [(h (3 * 1048576)).2.2.1 (by norm_num) (by norm_num)]; decide
  · rw [(h 1073741824).2.2.2.1 (by norm_num) (by norm_num)]; decide
  · rw [(h 1099511627776).2.2.2.2 (by norm_num) (by norm_num)]; decide

/-- C9 counterexample: the source formats through a double.  At
−(2^53 + 1) = −9007199254740993 the nearest double is −2^53, so the code
prints `-9007199254740992.0B` — not the argument formatted to one decimal
place — and at −10^400 the conversion raises OverflowError instead of
rendering, so not every negative size is accepted and rendered. -/
theorem c9_float_quantization_counterexample :
    format_file_size (-9007199254740993) = some "-9007199254740992.0B".data ∧
    format_file_size (-9007199254740993) ≠ some "-9007199254740993.0B".data ∧
    format_file_size (-(10 ^ 400)) = none := by
  refine ⟨by decide, by decide, by decide⟩

/-- C9 (amended): every integer strictly below 1024 whose magnitude is at
most 2^53 = 9007199254740992 — zero and all such negatives included, the
range where the double conversion is exact — renders with unit `B` as the
integer with a trailing `.0`: a minus sign when negative, then the decimal
digits of its absolute value, then `.0B`; such negative sizes are accepted,
not rejected.  Past 2^53 the printed digits are the nearest double's, and
magnitudes out of float range raise OverflowError (see the
counterexample). -/
theorem c9_small_and_negative_sizes (s : ℤ) (h : s < 1024)
    (h2 : -9007199254740992 ≤ s) :
    format_file_size s =
      some ((if s < 0 then '-' :: Nat.toDigits 10 s.natAbs
        else Nat.toDigits 10 s.natAbs) ++ '.' :: '0' :: ['B']) := by
  simp only [format_file_size]
  rw [if_pos h, toFloat_exact s (by omega)]
  show some (fmt1f s 1 ++ ['B']) = _
  rw [fmt1f_int s]
  simp

/-- Witness for C9 at the concrete input −5 given by the claim. -/
theorem c9_small_and_negative_sizes_witness :
    format_file_size (-5) = some "-5.0B".data := by
  rw [c9_small_and_negative_sizes (-5) (by norm_num) (by norm_num)]
  decide

/-!
JSON-like values, as produced by Python's `json` module, and the parts of
`main`'s pretty-output section (`scripts/slack.py`, lines 469–543) that
dispatch on them.  Output is modelled as a list of events, one per print
statement of the source, together with the process exit code; an uncaught
exception inside the section is the event `excMsg` (the source's outer
`except` handler prints the error and exits 1), and it aborts the rest of
the section just as the exception does.
-/

/-- JSON values. -/
inductive J where
  | null
  | b (v : Bool)
  | n (v : Int)
  | s (v : List Char)
  | arr (xs : List J)
  | obj (kvs : List (List Char × J))

/-- Python truthiness of a JSON value. -/
def truthy : J → Bool
  | J.null => false
  | J.b v => v
  | J.n v => v != 0
  | J.s v => !v.isEmpty
  | J.arr xs => !xs.isEmpty
  | J.obj kvs => !kvs.isEmpty

/-- First binding of a key in an association list (dict keys are unique and
insertion-ordered, so this is Python dict lookup). -/
def alistGet : List (List Char × J) → List Char → Option J
  | [], _ => none
  | (k, v) :: rest, key => if k = key then some v else alistGet rest key

/-- `d.get(key)`: `none` when the value is not a dict or lacks the key. -/
def jGet (o : J) (key : List Char) : Option J :=
  match o with
  | J.obj kvs => alistGet kvs key
  | _ => none

/-- `d.get(key, default)`. -/
def jGetD (o : J) (key : List Char) (d : J) : J :=
  (jGet o key).getD d

/-- `d[key] = v` on a dict: replace the value in place when the key exists,
otherwise append the binding. -/
def alistSet : List (List Char × J) → List Char → J → List (List Char × J)
  | [], key, v => [(key, v)]
  | (k, w) :: rest, key, v =>
    if k = key then (k, v) :: rest else (k, w) :: alistSet rest key v

def jSet (o : J) (key : List Char) (v : J) : J :=
  match o with
  | J.obj kvs => J.obj (alistSet kvs key v)
  | _ => o

/-- `msg.get('files', [])`, read as the list of file values. -/
def filesOfMsg (msg : J) : List J :=
  match jGetD msg "files".data (J.arr []) with
  | J.arr xs => xs
  | _ => []

/-- Tag one file dict with its owning message's timestamp and user, in the
source's assignment order (`_message_ts` first, then `_message_user`). -/
def tagFile (msg f : J) : J :=
  jSet (jSet f "_message_ts".data (jGetD msg "ts".data (J.s [])))
    "_message_user".data (jGetD msg "user".data (J.s []))

/-- `extract_files_from_messages` from `scripts/slack.py`: the nested
accumulation loop over the messages and each message's file list. -/
def extract_files_from_messages (messages : List J) : List J :=
  messages.foldl
    (fun files msg =>
      (filesOfMsg msg).foldl (fun fs f => fs ++ [tagFile msg f]) files)
    []

theorem foldl_push_map (g : J → J) :
    ∀ (l acc : List J), l.foldl (fun fs f => fs ++ [g f]) acc = acc ++ l.map g := by
  intro l
  induction l with
  | nil =>
    intro acc
    simp
  | cons x xs ih =>
    intro acc
    simp only [List.foldl_cons, List.map_cons, ih]
    simp

theorem extract_files_eq_bind_aux :
    ∀ (msgs acc : List J),
      msgs.foldl
        (fun files msg =>
          (filesOfMsg msg).foldl (fun fs f => fs ++ [tagFile msg f]) files) acc =
        acc ++ msgs.flatMap (fun m => (filesOfMsg m).map (tagFile m)) := by
  intro msgs
  induction msgs with
  | nil =>
    intro acc
    simp
  | cons m ms ih =>
    intro acc
    simp only [List.foldl_cons]
    rw [foldl_push_map (tagFile m) (filesOfMsg m) acc, ih]
    simp

/-- Sample message with one file. -/
def exMsg1 : J :=
  J.obj [("ts".data, J.s "111.1".data), ("user".data, J.s "U1".data),
    ("files".data, J.arr [J.obj [("name".data, J.s "a".data)]])]

/-- Sample message with two files. -/
def exMsg2 : J :=
  J.obj [("ts".data, J.s "222.2".data), ("user".data, J.s "U2".data),
    ("files".data,
      J.arr [J.obj [("name".data, J.s "b".data)],
        J.obj [("name".data, J.s "c".data)]])]

/-- C6: `extract_files_from_messages` is the concatenation, in message
order, of each message's file list in declared order, each file augmented
with `_message_ts` (owning message's `ts`, empty string when absent) and
`_message_user` (owning message's `user`, empty string when absent); no
sorting, deduplication or merging.  On two messages carrying one and two
files this gives the 3-element sequence tagged per owning message. -/
theorem c6_extract_files_order_and_tags :
    (∀ messages : List J,
      extract_files_from_messages messages =
        messages.flatMap (fun m => (filesOfMsg m).map (fun f =>
          jSet (jSet f "_message_ts".data (jGetD m "ts".data (J.s [])))
            "_message_user".data (jGetD m "user".data (J.s []))))) ∧
    extract_files_from_messages [exMsg1, exMsg2] =
      [J.obj [("name".data, J.s "a".data), ("_message_ts".data, J.s "111.1".data),
          ("_message_user".data, J.s "U1".data)],
        J.obj [("name".data, J.s "b".data), ("_message_ts".data, J.s "222.2".data),
          ("_message_user".data, J.s "U2".data)],
        J.obj [("name".data, J.s "c".data), ("_message_ts".data, J.s "222.2".data),
          ("_message_user".data, J.s "U2".data)]] := by
  constructor
  · intro messages
    exact extract_files_eq_bind_aux messages []
  · rfl

/-- The author-id selection of `format_message` (line 235):
`msg.get("user", msg.get("bot_id", "unknown"))`. -/
def author_id (msg : J) : J :=
  jGetD msg "user".data (jGetD msg "bot_id".data (J.s "unknown".data))

/-- String-to-string dict lookup for the users cache. -/
def cacheGet : List (List Char × List Char) → List Char → Option (List Char)
  | [], _ => none
  | (k, v) :: rest, key => if k = key then some v else cacheGet rest key

/-- The author display-name selection of `format_message` (line 236):
`users_cache.get(user_id, user_id) if users_cache else user_id`.  The cache
is an optional string-to-string dict; both `none` (parameter omitted or
None) and `some []` (empty dict) are falsy, so both fall back to the raw
id. -/
def display_name (msg : J) (users_cache : Option (List (List Char × List Char))) : J :=
  let uid := author_id msg
  match users_cache with
  | none => uid
  | some c =>
    if c.isEmpty then uid
    else
      match uid with
      | J.s sv =>
        match cacheGet c sv with
        | some nm => J.s nm
        | none => uid
      | _ => uid

/-- C8: the author display name is the cache entry when a nonempty cache is
supplied and contains the author id, and the raw id otherwise; the raw id
falls back through `user`, then `bot_id`, then the literal `unknown`. -/
theorem c8_author_display_name (msg : J) (c : List (List Char × List Char))
    (sv nm : List Char) :
    (author_id msg = J.s sv → cacheGet c sv = some nm →
      display_name msg (some c) = J.s nm) ∧
    (author_id msg = J.s sv → cacheGet c sv = none →
      display_name msg (some c) = author_id msg) ∧
    (display_name msg none = author_id msg) ∧
    (∀ v, jGet msg "user".data = some v → author_id msg = v) ∧
    (∀ v, jGet msg "user".data = none → jGet msg "bot_id".data = some v →
      author_id msg = v) ∧
    (jGet msg "user".data = none → jGet msg "bot_id".data = none →
      author_id msg = J.s "unknown".data) := by
  refine ⟨?_, ?_, rfl, ?_, ?_, ?_⟩
  · intro hid hc
    have hne : c ≠ [] := by
      intro h
      rw [h] at hc
      cases hc
    simp [display_name, hid, hc, hne]
  · intro hid hc
    by_cases hne : c.isEmpty
    · simp [display_name, hne]
    · simp [display_name, hid, hc, hne]
  · intro v hv
    simp [author_id, jGetD, hv]
  · intro v hu hb
    simp [author_id, jGetD, hu, hb]
  · intro hu hb
    simp [author_id, jGetD, hu, hb]

/-- Witness for C8: each branch of the author-name selection exercised at a
concrete message and cache through `c8_author_display_name`. -/
theorem c8_author_display_name_witness :
    display_name (J.obj [("user".data, J.s "U1".data)])
        (some [("U1".data, "Alice".data)]) = J.s "Alice".data ∧
    display_name (J.obj [("user".data, J.s "U2".data)])
        (some [("U1".data, "Alice".data)]) = J.s "U2".data ∧
    display_name (J.obj [("bot_id".data, J.s "B9".data)]) none = J.s "B9".data ∧
    display_name (J.obj []) none = J.s "unknown".data := by
  refine ⟨?_, ?_, ?_, ?_⟩
  · exact (c8_author_display_name (J.obj [("user".data, J.s "U1".data)])
      [("U1".data, "Alice".data)] "U1".data "Alice".data).1 (by rfl) (by rfl)
  · have h := (c8_author_display_name (J.obj [("user".data, J.s "U2".data)])
      [("U1".data, "Alice".data)] "U2".data "Alice".data).2.1 (by rfl) (by decide)
    rw [h]
    rfl
  · have h := (c8_author_display_name (J.obj [("bot_id".data, J.s "B9".data)])
      [] "B9".data "B9".data).2.2.1
    rw [h]
    rfl
  · have h := (c8_author_display_name (J.obj []) [] [] []).2.2.1
    rw [h]
    exact (c8_author_display_name (J.obj []) [] [] []).2.2.2.2.2 rfl rfl

/-- One event per print statement of the pretty-output section, plus
`excMsg` for the outer exception handler's `Error: ...` line. -/
inductive Ev where
  | errMsg (e : J)
  | excMsg
  | noFiles
  | foundFiles (count : Nat)
  | fileLine (idx : Nat) (line : List Char)
  | downloadingTo (dir : List Char)
  | downloadTry (fname : J) (ok : Bool)
  | downloadSummary (succ total : Nat)
  | foundMessages (count : Nat)
  | msgLine (m : J)
  | foundMatches (count : Nat)
  | matchLine (m : J)
  | foundChannels (count : Nat)
  | channelLine (ch : J)
  | userBlock (u : J)
  | channelBlock (ch : J)

/-- `len(v)` for sized values. -/
def pyLen : J → Nat
  | J.arr xs => xs.length
  | J.obj kvs => kvs.length
  | J.s cs => cs.length
  | _ => 0

/-- `for x in v`: arrays yield elements, dicts yield their keys as strings,
strings yield their characters. -/
def pyIter : J → List J
  | J.arr xs => xs
  | J.obj kvs => kvs.map (fun kv => J.s kv.1)
  | J.s cs => cs.map (fun c => J.s [c])
  | _ => []

def isObj : J → Bool
  | J.obj _ => true
  | _ => false

/-- Python `x or y`. -/
def pyOr (x y : J) : J :=
  if truthy x then x else y

def asStr : J → List Char
  | J.s v => v
  | _ => []

def asInt : J → ℤ
  | J.n v => v
  | _ => 0

/-- `format_file_info` from `scripts/slack.py`.  The size string defaults to
empty on `format_file_size`'s OverflowError arm, which only absurd size
fields outside the double range can reach; the listing events model
in-range sizes. -/
def format_file_info (f : J) (verbose : Bool) : List Char :=
  let nm := asStr (jGetD f "name".data (J.s "unnamed".data))
  let sz := (format_file_size (asInt (jGetD f "size".data (J.n 0)))).getD []
  let ft := asStr (jGetD f "filetype".data (J.s "unknown".data))
  let url := pyOr (jGetD f "url_private_download".data J.null)
    (jGetD f "url_private".data (J.s []))
  let plk := jGetD f "permalink".data (J.s [])
  if verbose then
    "  📎 ".data ++ nm ++ "\n     Type: ".data ++ ft ++ " | Size: ".data ++
      sz ++ "\n     Download: ".data ++ asStr url ++
      "\n     Permalink: ".data ++ asStr plk
  else
    "  📎 ".data ++ nm ++ " (".data ++ ft ++ ", ".data ++ sz ++ ")".data

/-- Render one event per element; a non-dict element makes `format_message`
(or the channel-line field reads) raise, aborting the loop. -/
def renderList (mk : J → Ev) : List J → List Ev × Bool
  | [] => ([], false)
  | m :: ms =>
    if isObj m then
      (mk m :: (renderList mk ms).1, (renderList mk ms).2)
    else ([], true)

/-- The `enumerate(files, 1)` listing loop. -/
def enumFileLines (verbose : Bool) : Nat → List J → List Ev
  | _, [] => []
  | i, f :: fs =>
    Ev.fileLine i (format_file_info f verbose) :: enumFileLines verbose (i + 1) fs

/-- The download loop of `main` (lines 488–499): files without a truthy
`url_private_download` or `url_private` are passed over with no attempt and
no message; attempted downloads print one line and successes are counted.
`dl` is the oracle for `client.download_file`. -/
def runDownloadLoop (dl : J → Bool) : List J → Nat × List Ev
  | [] => (0, [])
  | f :: fs =>
    let url := pyOr (jGetD f "url_private_download".data J.null)
      (jGetD f "url_private".data J.null)
    let rest := runDownloadLoop dl fs
    if truthy url then
      ((if dl url then 1 else 0) + rest.1,
        Ev.downloadTry (jGetD f "name".data (J.s "unnamed".data)) (dl url) :: rest.2)
    else rest

def filesArrObjs : J → Bool
  | J.arr xs => xs.all isObj
  | _ => false

/-- `extract_files_from_messages` raises unless every message is a dict
whose `files` value is an array of dicts. -/
def extractGuard (msgs : List J) : Bool :=
  msgs.all (fun m => isObj m && filesArrObjs (jGetD m "files".data (J.arr [])))

structure MainArgs where
  search : Bool
  list_files : Bool
  download_files : Bool
  verbose : Bool
  output_dir : List Char

/-- The `--list-files` / `--download-files` branch of the pretty section
(lines 476–500). -/
def filesSection (a : MainArgs) (dl : J → Bool) (messages : J) : List Ev × Bool :=
  let msgs := pyIter messages
  if extractGuard msgs then
    let files := extract_files_from_messages msgs
    if files.isEmpty then ([Ev.noFiles], false)
    else
      let infoEvs := enumFileLines a.verbose 1 files
      if a.download_files then
        let res := runDownloadLoop dl files
        (Ev.foundFiles files.length :: infoEvs ++
          Ev.downloadingTo a.output_dir :: res.2 ++
          [Ev.downloadSummary res.1 files.length], false)
      else (Ev.foundFiles files.length :: infoEvs, false)
  else ([], true)

/-- The search special-case (lines 508–516): only when the `messages` value
is a dict, read its `matches` and render them. -/
def searchSection (result : J) : List Ev × Bool :=
  let sd := jGetD result "messages".data (J.obj [])
  if isObj sd then
    let sm := jGetD sd "matches".data (J.arr [])
    if truthy sm then
      let r := renderList Ev.matchLine (pyIter sm)
      (Ev.foundMatches (pyLen sm) :: r.1, r.2)
    else ([], false)
  else ([], false)

/-- The user-info / channel-info blocks: presence-gated single-record
rendering; a truthy non-dict raises on the field reads. -/
def blockEvs (v : J) (mk : J → Ev) : List Ev × Bool :=
  if truthy v then (if isObj v then ([mk v], false) else ([], true))
  else ([], false)

/-- The pretty-output section of `main` (lines 469–543): the envelope check,
then the file-operations or plain-messages branch, then the search
special-case, channels, user and channel blocks, in source order; an
exception in any part prints the handler's error line and exits 1, skipping
everything after it.  Returns the events and the exit code. -/
def prettyOut (a : MainArgs) (dl : J → Bool) (result : J) : List Ev × Nat :=
  if truthy (jGetD result "ok".data J.null) = false then
    ([Ev.errMsg (jGetD result "error".data (J.s "Unknown error".data))], 1)
  else
    let messages := jGetD result "messages".data (J.arr [])
    let s1 : List Ev × Bool :=
      if a.list_files || a.download_files then filesSection a dl messages
      else if truthy messages then
        let r := renderList Ev.msgLine (pyIter messages)
        (Ev.foundMessages (pyLen messages) :: r.1, r.2)
      else ([], false)
    if s1.2 then (s1.1 ++ [Ev.excMsg], 1)
    else
      let s2 := if a.search then searchSection result else ([], false)
      if s2.2 then (s1.1 ++ s2.1 ++ [Ev.excMsg], 1)
      else
        let channels := jGetD result "channels".data (J.arr [])
        let s3 : List Ev × Bool :=
          if truthy channels then
            let r := renderList Ev.channelLine (pyIter channels)
            (Ev.foundChannels (pyLen channels) :: r.1, r.2)
          else ([], false)
        if s3.2 then (s1.1 ++ s2.1 ++ s3.1 ++ [Ev.excMsg], 1)
        else
          let s4 := blockEvs (jGetD result "user".data (J.obj [])) Ev.userBlock
          if s4.2 then (s1.1 ++ s2.1 ++ s3.1 ++ s4.1 ++ [Ev.excMsg], 1)
          else
            let s5 := blockEvs (jGetD result "channel".data (J.obj [])) Ev.channelBlock
            if s5.2 then (s1.1 ++ s2.1 ++ s3.1 ++ s4.1 ++ s5.1 ++ [Ev.excMsg], 1)
            else (s1.1 ++ s2.1 ++ s3.1 ++ s4.1 ++ s5.1, 0)

/-- C4: when the envelope's `ok` is falsy, the pretty section prints only
the error line — the `error` field verbatim when it is a string, the
default `Unknown error` text when absent — and exits 1; no messages,
matches, channels, user or channel extraction is reached. -/
theorem c4_api_error_short_circuits (a : MainArgs) (dl : J → Bool) (result : J)
    (h : truthy (jGetD result "ok".data J.null) = false) :
    prettyOut a dl result =
      ([Ev.errMsg (jGetD result "error".data (J.s "Unknown error".data))], 1) ∧
    ∀ e, jGet result "error".data = some (J.s e) →
      prettyOut a dl result = ([Ev.errMsg (J.s e)], 1) := by
  constructor
  · simp only [prettyOut]
    rw [if_pos h]
  · intro e he
    have hd : jGetD result "error".data (J.s "Unknown error".data) = J.s e := by
      simp [jGetD, he]
    simp only [prettyOut]
    rw [if_pos h, hd]

/-- Witness for C4: an envelope with `ok=false` and `error="not_authed"`
yields exactly that string in the error line and exit code 1. -/
theorem c4_api_error_short_circuits_witness :
    prettyOut ⟨false, false, false, false, []⟩ (fun _ => false)
        (J.obj [("ok".data, J.b false), ("error".data, J.s "not_authed".data)]) =
      ([Ev.errMsg (J.s "not_authed".data)], 1) := by
  exact (c4_api_error_short_circuits ⟨false, false, false, false, []⟩
    (fun _ => false)
    (J.obj [("ok".data, J.b false), ("error".data, J.s "not_authed".data)])
    (by rfl)).2 "not_authed".data (by rfl)

/-- C2: the claim that the plain-`messages` rendering path is never applied
to a search response whose `messages` value is a record fails on the code.
On a search invocation with a search-shaped envelope, `messages` is a
nonempty dict, which is truthy, so the `elif messages:` branch runs first:
it prints `Found 2 message(s)` (the dict's key count) and then
`format_message` raises on the first dict key, so the nested
`matches` extraction is never reached. -/
theorem c2_plain_path_hits_search_response :
    prettyOut ⟨true, false, false, false, []⟩ (fun _ => false)
        (J.obj [("ok".data, J.b true),
          ("messages".data,
            J.obj [("total".data, J.n 1),
              ("matches".data, J.arr [J.obj [("text".data, J.s "hi".data)]])])]) =
      ([Ev.foundMessages 2, Ev.excMsg], 1) := by
  rfl

/-- C10: in the download loop, the attempted downloads are exactly the
files with a truthy `url_private_download` or `url_private` (a file with
neither produces no attempt and no failure line), the success count is the
number of attempts whose download succeeded, while the printed summary
divides by the length of the whole file list; concretely, two files of
which one lacks both URL fields yield one successful attempt, no failure,
and the summary `Downloaded 1/2`. -/
theorem c10_urlless_files_skipped_but_counted :
    (∀ (dl : J → Bool) (files : List J),
      (runDownloadLoop dl files).2 = files.filterMap (fun f =>
        let url := pyOr (jGetD f "url_private_download".data J.null)
          (jGetD f "url_private".data J.null)
        if truthy url then
          some (Ev.downloadTry (jGetD f "name".data (J.s "unnamed".data)) (dl url))
        else none) ∧
      (runDownloadLoop dl files).1 = (files.filterMap (fun f =>
        let url := pyOr (jGetD f "url_private_download".data J.null)
          (jGetD f "url_private".data J.null)
        if truthy url then some (dl url) else none)).count true) ∧
    prettyOut ⟨false, false, true, false, "./slack-downloads".data⟩ (fun _ => true)
        (J.obj [("ok".data, J.b true),
          ("messages".data, J.arr [J.obj [("ts".data, J.s "1.0".data),
            ("user".data, J.s "U1".data),
            ("files".data, J.arr
              [J.obj [("name".data, J.s "a.txt".data),
                ("url_private".data, J.s "https://files/a".data)],
               J.obj [("name".data, J.s "b.txt".data)]])]])]) =
      ([Ev.foundFiles 2,
        Ev.fileLine 1 "  📎 a.txt (unknown, 0.0B)".data,
        Ev.fileLine 2 "  📎 b.txt (unknown, 0.0B)".data,
        Ev.downloadingTo "./slack-downloads".data,
        Ev.downloadTry (J.s "a.txt".data) true,
        Ev.downloadSummary 1 2], 0) := by
  constructor
  · intro dl files
    induction files with
    | nil => exact ⟨rfl, rfl⟩
    | cons f fs ih =>
      constructor
      · simp only [runDownloadLoop, List.filterMap_cons]
        by_cases h : truthy (pyOr (jGetD f "url_private_download".data J.null)
          (jGetD f "url_private".data J.null)) = true
        · simp only [h, if_true, ih.1]
        · simp only [Bool.not_eq_true] at h
          simp only [h, Bool.false_eq_true, if_false, ih.1]
      · simp only [runDownloadLoop, List.filterMap_cons]
        by_cases h : truthy (pyOr (jGetD f "url_private_download".data J.null)
          (jGetD f "url_private".data J.null)) = true
        · simp only [h, if_true, ih.2, List.count_cons]
          by_cases hd : dl f = true
          · cases hdl : dl (pyOr (jGetD f "url_private_download".data J.null)
              (jGetD f "url_private".data J.null)) <;> simp [hdl, Nat.add_comm]
          · cases hdl : dl (pyOr (jGetD f "url_private_download".data J.null)
              (jGetD f "url_private".data J.null)) <;> simp [hdl, Nat.add_comm]
        · simp only [Bool.not_eq_true] at h
          simp only [h, Bool.false_eq_true, if_false, ih.2]
  · rfl

end SlackClient
